import Mathlib

/-!
Shallow embedding of the trade-to-market alignment and whale-detection
pipeline of the kalshi-whale-static repository.

The authoritative client pipeline is the first document of
`src/unnamed/part_009` (`useAlignedMarkets`, `useWhaleAlerts`): a paginated
trade fetch (at most `MAX_PAGES_TO_FETCH` pages), a per-ticker market
lookup settled independently (`Promise.allSettled`), a single relative
whale threshold (12.5% of the leading market's 24-hour notional volume),
and a fold of trades into one rollup per ticker followed by a title filter
and a crypto-keyword filter.

Monetary quantities are embedded as rationals (`ℚ`); JavaScript `x || d`
defaulting on possibly-missing numeric fields becomes `Option.getD`, and on
string fields it becomes `jsOrStr` (the empty string is falsy in
JavaScript).  Association lists standing for JavaScript `Map`s keep
insertion order: `Map.set` of a fresh key appends, updating an existing
key rewrites the first (unique) matching entry in place.
-/

namespace KalshiWhale

/-- One executed trade as delivered by the trades endpoint.  `count` and
`price` may be absent upstream; the pipeline reads them as `(x || 0)`. -/
structure Trade where
  ticker : String
  count : Option ℚ
  price : Option ℚ
  created_time : String
  trade_id : Option String
deriving DecidableEq, Repr

/-- Market metadata as returned by the market/event lookup (the body's
`market` or `event` object).  All fields may be absent.  The upstream
object also repeats the requested ticker; since it always equals the key
the lookup was issued for, the merged record's ticker is taken from the
trade. -/
structure MarketMetadata where
  title : Option String
  category_name : Option String
  market_id : Option String
  expiration_time : Option String
  yes_sub_title : Option String
  no_sub_title : Option String
  frequency : Option String
  status : Option String
  event_ticker : Option String
  open_time : Option String
  close_time : Option String
  last_price : Option ℚ
  volume : Option ℚ
  volume_24h : Option ℚ
  previous_price : Option ℚ
  yes_ask : Option ℚ
  yes_bid : Option ℚ
  yes_bid_dollars : Option ℚ
  no_bid_dollars : Option ℚ
deriving DecidableEq, Repr

/-- The per-market rollup record (`Market` in the source's types) as the
fold in `useAlignedMarkets` populates it. -/
structure Market where
  id : String
  question : String
  title : String
  category : String
  ticker_symbol : String
  last_price : Option ℚ
  volume : Option ℚ
  last_update : String
  expiration_time : String
  yes_sub_title : String
  no_sub_title : String
  cadence : String
  status : String
  event_ticker : String
  open_time : String
  close_time : String
  outcomes : List String
  high_volume : Bool
  trending : Bool
  high_liquidity : Bool
  recent : Bool
  yes_bid_dollars : Option ℚ
  no_bid_dollars : Option ℚ
  volume_24h : Option ℚ
  previous_price : Option ℚ
  yes_ask : Option ℚ
  yes_bid : Option ℚ
deriving DecidableEq, Repr

/-- JavaScript `s || d` on an optional string: both `undefined` and the
empty string are falsy. -/
def jsOrStr (o : Option String) (d : String) : String :=
  match o with
  | some s => if s = "" then d else s
  | none => d

/-- The resolver's lookup table for one refresh cycle: ticker to resolved
metadata, in insertion order. -/
abbrev Cache := List (String × MarketMetadata)

/-- `marketInfoCache.get(ticker)` (first matching entry; keys are unique
because the cache is built over deduplicated tickers). -/
def cacheLookup (c : Cache) (k : String) : Option MarketMetadata :=
  match c.find? (fun p => p.1 = k) with
  | some p => some p.2
  | none => none

/-- `marketInfoCache.has(ticker)`. -/
def cacheHas (c : Cache) (k : String) : Bool :=
  (List.any c (fun p => p.1 = k))

/-- `((market.volume_24h || 0) * (market.last_price || 0)) / 100` — one
market's 24-hour notional volume in dollars (price is in cents). -/
def marketNotionalVolume24h (md : MarketMetadata) : ℚ :=
  ((md.volume_24h.getD 0) * (md.last_price.getD 0)) / 100

/-- Pass 1 scan: `if (marketNotionalVolume24h > maxNotionalVolume)
maxNotionalVolume = marketNotionalVolume24h`, starting from 0, over the
cache's values in insertion order. -/
def maxNotionalVolume (c : Cache) : ℚ :=
  List.foldl
    (fun acc p =>
      if marketNotionalVolume24h p.2 > acc then marketNotionalVolume24h p.2 else acc)
    0 c

/-- `const whaleThreshold = maxNotionalVolume * 0.125`. -/
def whaleThreshold (c : Cache) : ℚ :=
  maxNotionalVolume c * 0.125

/-- `const tradeNotionalValue = (alignedTrade.count || 0) *
(alignedTrade.price || 0)`.  Note: no division by 100 on this side. -/
def tradeNotionalValue (t : Trade) : ℚ :=
  (t.count.getD 0) * (t.price.getD 0)

/-- `const isWhaleTrade = tradeNotionalValue > whaleThreshold`. -/
def isWhaleTrade (threshold : ℚ) (t : Trade) : Bool :=
  tradeNotionalValue t > threshold

/-- The rollup map under construction, `marketsMap`, in insertion order. -/
abbrev RollupMap := List (String × Market)

/-- `marketsMap.has(ticker)`. -/
def mapHas (m : RollupMap) (k : String) : Bool :=
  (List.any m (fun p => p.1 = k))

/-- `marketsMap.get(ticker)`. -/
def mapLookup (m : RollupMap) (k : String) : Option Market :=
  match m.find? (fun p => p.1 = k) with
  | some p => some p.2
  | none => none

/-- In-place mutation of the entry an existing key maps to (keys are
unique, so rewriting the first match models `Map.get` + field updates). -/
def mapUpdate (m : RollupMap) (k : String) (f : Market → Market) : RollupMap :=
  match m with
  | [] => []
  | p :: rest =>
      if p.1 = k then (p.1, f p.2) :: rest else p :: mapUpdate rest k f

/-- The creation branch of the fold (`marketsMap.set(alignedTrade.ticker,
{...})`): the rollup seeded from the trade and its resolved metadata. -/
def mkMarket (t : Trade) (md : MarketMetadata) (whale : Bool) : Market :=
  { id := jsOrStr md.market_id t.ticker
    question := jsOrStr md.title "Unknown Title"
    title := jsOrStr md.title "Unknown Title"
    category := jsOrStr md.category_name "Crypto"
    ticker_symbol := t.ticker
    last_price := md.last_price
    volume := md.volume
    last_update := t.created_time
    expiration_time := jsOrStr md.expiration_time ""
    yes_sub_title := jsOrStr md.yes_sub_title "YES"
    no_sub_title := jsOrStr md.no_sub_title "NO"
    cadence := jsOrStr md.frequency "N/A"
    status := jsOrStr md.status "open"
    event_ticker := jsOrStr md.event_ticker ""
    open_time := jsOrStr md.open_time ""
    close_time := jsOrStr md.close_time ""
    outcomes := []
    high_volume := whale
    trending := true
    high_liquidity := true
    recent := true
    yes_bid_dollars := md.yes_bid_dollars
    no_bid_dollars := md.no_bid_dollars
    volume_24h := md.volume_24h
    previous_price := md.previous_price
    yes_ask := md.yes_ask
    yes_bid := md.yes_bid }

/-- The update branch of the fold: `existingMarket.volume =
alignedTrade.volume` (the metadata snapshot — the trade record carries no
`volume` field, so the merged record's `volume` is the metadata's), then
OR the whale flag, then overwrite last price (metadata's `last_price`)
and last-update (the trade's timestamp). -/
def updateMarket (t : Trade) (md : MarketMetadata) (whale : Bool) (em : Market) : Market :=
  { em with
    volume := md.volume
    high_volume := if whale then true else em.high_volume
    last_price := md.last_price
    last_update := t.created_time }

/-- One iteration of the Pass-2 fold over a single aligned trade: skip if
the ticker did not resolve, otherwise classify and create/update. -/
def processTrade (c : Cache) (threshold : ℚ) (m : RollupMap) (t : Trade) : RollupMap :=
  match cacheLookup c t.ticker with
  | none => m
  | some md =>
      let whale := isWhaleTrade threshold t
      if mapHas m t.ticker then mapUpdate m t.ticker (updateMarket t md whale)
      else m ++ [(t.ticker, mkMarket t md whale)]

/-- The whole Pass-2 fold: threshold from Pass 1, then the trade loop. -/
def runRollups (c : Cache) (trades : List Trade) : RollupMap :=
  List.foldl (processTrade c (whaleThreshold c)) [] trades

/-- JavaScript `s.includes(sub)` for a non-empty `sub`: `splitOn` yields
more than one piece exactly when `sub` occurs in `s`. -/
def strIncludes (s sub : String) : Bool :=
  (s.splitOn sub).length != 1

/-- The expanded crypto keyword allow-list of the current hook. -/
def cryptoKeywords : List String :=
  ["btc", "eth", "crypto", "bitcoin", "ethereum",
   "sol", "solana", "bch", "ada", "cardano", "matic",
   "polygon", "dot", "polkadot", "link", "chainlink",
   "ltc", "litecoin", "xrp"]

/-- The title null filter: `market.title && market.title.trim() !== "" &&
market.title !== "Unknown Title"`. -/
def titleOk (m : Market) : Bool :=
  m.title != "" && m.title.trim != "" && m.title != "Unknown Title"

/-- The final crypto keyword filter predicate. -/
def cryptoOk (m : Market) : Bool :=
  cryptoKeywords.any
    (fun kw => strIncludes m.ticker_symbol.toLower kw || strIncludes m.title.toLower kw)

/-- `{ markets, count, timestamp }` returned by the query function; the
wall-clock timestamp is outside the embedding. -/
structure MarketsResponse where
  markets : List Market
  count : Nat
deriving DecidableEq, Repr

/-- Pass 3 and the response assembly of `useAlignedMarkets`. -/
def assembleResponse (rollups : RollupMap) : MarketsResponse :=
  let finalMarkets := rollups.map (fun p => p.2)
  let titledMarkets := finalMarkets.filter titleOk
  let filteredCryptoMarkets := titledMarkets.filter cryptoOk
  { markets := filteredCryptoMarkets, count := filteredCryptoMarkets.length }

/-- One page of the trades endpoint: the `trades` array may be absent
(`if (tradeData.trades)`), the continuation `cursor` may be absent or
empty (both falsy under `if (tradeData.cursor)`). -/
structure TradePage where
  trades : Option (List Trade)
  cursor : Option String
deriving DecidableEq, Repr

/-- `const MAX_PAGES_TO_FETCH = 5`. -/
def MAX_PAGES_TO_FETCH : Nat := 5

/-- The pagination loop body, fuelled by the remaining iteration count of
`for (let i = 0; i < MAX_PAGES_TO_FETCH; i++)`.  A failed fetch breaks
out keeping the trades accumulated so far; an absent or falsy cursor
breaks after appending the page.  The second component counts the page
fetches issued. -/
def paginateLoop (fetchPage : Option String → Except Unit TradePage) :
    Nat → Option String → List Trade → Nat → List Trade × Nat
  | 0, _, acc, fetches => (acc, fetches)
  | k + 1, cur, acc, fetches =>
      match fetchPage cur with
      | Except.error _ => (acc, fetches + 1)
      | Except.ok page =>
          match page.cursor with
          | some c =>
              if c = "" then (acc ++ page.trades.getD [], fetches + 1)
              else paginateLoop fetchPage k (some c) (acc ++ page.trades.getD [])
                (fetches + 1)
          | none => (acc ++ page.trades.getD [], fetches + 1)

/-- The whole paginated fetch: start with no cursor, empty accumulator. -/
def paginateTrades (fetchPage : Option String → Except Unit TradePage) :
    List Trade × Nat :=
  paginateLoop fetchPage MAX_PAGES_TO_FETCH none [] 0

/-- `[...new Set(trades.map(t => t.ticker))]`: deduplication keeping the
first-occurrence order. -/
def dedupFirst (l : List String) : List String :=
  List.foldl (fun acc t => if t ∈ acc then acc else acc ++ [t]) [] l

/-- The body a fulfilled market lookup settles with: the route passes the
upstream JSON through, which carries a `market` or an `event` object. -/
structure FetchResponse where
  market : Option MarketMetadata
  event : Option MarketMetadata
deriving DecidableEq, Repr

/-- JavaScript `a || b` on two optional objects (an object is never
falsy). -/
def jsOrOpt (a b : Option MarketMetadata) : Option MarketMetadata :=
  match a with
  | some x => some x
  | none => b

/-- The raw resolver table: `marketInfoResults.forEach(...)` over the
settled lookups (`none` = rejected).  A JavaScript `Map` happily stores
`undefined` as a value, so entries carry `Option MarketMetadata`:
`marketInfoCache.set(ticker, result.value.market || result.value.event)`
stores `none` when a fulfilled body carries neither object. -/
def buildCache (tickers : List String) (settle : String → Option FetchResponse) :
    List (String × Option MarketMetadata) :=
  List.foldl
    (fun cache t =>
      match settle t with
      | some resp => cache ++ [(t, jsOrOpt resp.market resp.event)]
      | none => cache)
    [] tickers

/-- `has` on the raw resolver table (true also for a stored `none`). -/
def rawCacheHas (c : List (String × Option MarketMetadata)) (k : String) : Bool :=
  (List.any c (fun p => p.1 = k))

/-- `get` on the raw resolver table; the stored value, when present. -/
def rawCacheEntry (c : List (String × Option MarketMetadata)) (k : String) :
    Option (Option MarketMetadata) :=
  match c.find? (fun p => p.1 = k) with
  | some p => some p.2
  | none => none

/-- The resolver at the adapter's interface, where each lookup either
yields metadata or fails: the well-formed cache the pipeline folds over
(this is `buildCache` once every fulfilled body carries its `market` or
`event` object). -/
def resolveTickers (tickers : List String) (resolve : String → Option MarketMetadata) :
    Cache :=
  List.foldl
    (fun cache t =>
      match resolve t with
      | some md => cache ++ [(t, md)]
      | none => cache)
    [] tickers

/-- One full refresh cycle of `useAlignedMarkets`'s query function:
paginate, deduplicate tickers, resolve, fold, filter.  Note the type: the
cycle has no error outcome — a failed page fetch is caught inside the
pagination loop and only breaks it. -/
def refreshCycle (fetchPage : Option String → Except Unit TradePage)
    (resolve : String → Option MarketMetadata) : MarketsResponse :=
  let trades := (paginateTrades fetchPage).1
  let marketTickers := dedupFirst (trades.map (fun t => t.ticker))
  let marketInfoCache := resolveTickers marketTickers resolve
  assembleResponse (runRollups marketInfoCache trades)

/-- The ticker prefix allow-list of `app/api/kalshi/market/[ticker]`. -/
def allowedTickerPrefixList : List String :=
  ["KXBTC", "KXETH", "KXSOL", "KXCRYPTO", "KXBCH", "KXADA",
   "KXMATIC", "KXDOT", "KXLINK", "KXLTC", "KXXRP"]

/-- JavaScript `s.startsWith(pre)`, as a character-list prefix test. -/
def strStartsWith (s pre : String) : Bool :=
  List.isPrefixOf pre.data s.data

/-- The allow-list check of the route: does any allowed prefix start the
ticker. -/
def isAllowedTicker (ticker : String) : Bool :=
  allowedTickerPrefixList.any (fun p => strStartsWith ticker p)

/-- The current market route `GET` (first document of
`app/api/kalshi/market/[ticker]/route.ts`): required ticker, prefix
allow-list, a single upstream market fetch, and — per its own comment —
no event fallback.  Lookups are `Except status body`; a thrown fetch maps
to a 500-style failure upstream of this model and is still a failure.
The `fetchEvent` argument is accepted (the adapter offers it) but the
route never consults it. -/
def marketRouteGET (fetchMarket fetchEvent : String → Except Nat FetchResponse)
    (ticker : String) : Except Nat FetchResponse :=
  if ticker = "" then Except.error 400
  else if ¬ isAllowedTicker ticker then Except.error 422
  else
    match fetchMarket ticker with
    | Except.ok data => Except.ok data
    | Except.error status => Except.error status

/-- The older market route variant kept in the repository (second
document of `app/api/kalshi/markets/route.ts`): no allow-list, and a 404
from the market fetch is retried once as an event fetch; the final
failure status is the last response's. -/
def marketRouteGETFallback (fetchMarket fetchEvent : String → Except Nat FetchResponse)
    (ticker : String) : Except Nat FetchResponse :=
  if ticker = "" then Except.error 400
  else
    match fetchMarket ticker with
    | Except.ok data => Except.ok data
    | Except.error status =>
        if status = 404 then
          match fetchEvent ticker with
          | Except.ok data2 => Except.ok data2
          | Except.error status2 => Except.error status2
        else Except.error status

/-- One reshaped whale alert record of `useWhaleAlerts`. -/
structure WhaleSignal where
  id : String
  type : String
  ticker : String
  severity : String
  confidence : ℚ
  market_impact : String
  current_value : Option ℚ
  growth_multiple : ℚ
  timestamp : String
  description : String
deriving DecidableEq, Repr

/-- `m => ({ id: hv-..., type: volume_surge, ... })`. -/
def mkWhaleSignal (m : Market) : WhaleSignal :=
  { id := "hv-" ++ m.id
    type := "volume_surge"
    ticker := jsOrStr (some m.ticker_symbol) "N/A"
    severity := "medium"
    confidence := 80
    market_impact := "high"
    current_value := m.volume
    growth_multiple := 3.5
    timestamp := m.last_update
    description := "Whale activity detected on " ++ m.title }

/-- The `data` object of the whale-alerts response (the static
`detection_types` and `thresholds` metadata carried alongside). -/
structure WhaleAlertsData where
  alerts : List WhaleSignal
  count : Nat
  whale_signals_count : Nat
  high_volume_count : Nat
  volume_surge : Bool
  odds_flip : Bool
  order_book_shift : Bool
  high_volume : Bool
  volume_surge_multiplier : ℚ
  odds_change_percent : ℚ
  order_book_change_percent : ℚ
  minimum_volume : ℚ
deriving DecidableEq, Repr

/-- `useWhaleAlerts`: filter the markets view to flagged rollups, reshape
each, and report the same length under three names. -/
def whaleAlertsData (resp : MarketsResponse) : WhaleAlertsData :=
  let whaleAlerts := (resp.markets.filter (fun m => m.high_volume)).map mkWhaleSignal
  { alerts := whaleAlerts
    count := whaleAlerts.length
    whale_signals_count := whaleAlerts.length
    high_volume_count := whaleAlerts.length
    volume_surge := true
    odds_flip := false
    order_book_shift := false
    high_volume := true
    volume_surge_multiplier := 3
    odds_change_percent := 15
    order_book_change_percent := 25
    minimum_volume := 100000 }

/-! Concrete records used by the end-to-end scenario theorems below. -/

/-- Metadata record with every field absent; scenario records override
the fields they fix. -/
def mdEmpty : MarketMetadata :=
  { title := none, category_name := none, market_id := none,
    expiration_time := none, yes_sub_title := none, no_sub_title := none,
    frequency := none, status := none, event_ticker := none, open_time := none,
    close_time := none, last_price := none, volume := none,
    volume_24h := none, previous_price := none, yes_ask := none,
    yes_bid := none, yes_bid_dollars := none, no_bid_dollars := none }

/-- Scenario A metadata for ticker X: `volume_24h = 1000`,
`last_price = 50`. -/
def mdA : MarketMetadata :=
  { mdEmpty with title := some "Bitcoin up today?",
                 volume_24h := some 1000, last_price := some 50 }

/-- Scenario A resolver table: X resolved to `mdA`. -/
def cacheA : Cache := [("X", mdA)]

/-- Scenario A trade: `{ticker: "X", count: 10, price: 60,
created_time: t1}`. -/
def tradeA : Trade :=
  { ticker := "X", count := some 10, price := some 60,
    created_time := "t1", trade_id := none }

/-- Scenario C metadata for ticker Y, with a market volume snapshot of 7
(deliberately unequal to any sum of the scenario trade counts). -/
def mdY : MarketMetadata :=
  { mdEmpty with title := some "Ethereum up today?",
                 volume_24h := some 1000, last_price := some 50,
                 volume := some 7 }

/-- Scenario C resolver table: Y resolved to `mdY`. -/
def cacheY : Cache := [("Y", mdY)]

/-- Scenario C first trade on Y: notional 600, a whale trade against the
62.5 threshold of `cacheY`. -/
def tradeY1 : Trade :=
  { ticker := "Y", count := some 10, price := some 60,
    created_time := "t1", trade_id := none }

/-- Scenario C second trade on Y: notional 10, not a whale trade. -/
def tradeY2 : Trade :=
  { ticker := "Y", count := some 1, price := some 10,
    created_time := "t2", trade_id := none }

/-- Variant of the second trade with a different count (notional 60,
still not a whale trade); used to show the rollup volume ignores trade
counts. -/
def tradeY2b : Trade :=
  { ticker := "Y", count := some 6, price := some 10,
    created_time := "t2", trade_id := none }

/-- Metadata whose raw numbers mirror scenario A's trade (`volume_24h =
10`, `last_price = 60`): used to exhibit that the market-side
normalization divides the very same numbers by 100 while the trade side
does not. -/
def mdSameNumbers : MarketMetadata :=
  { mdEmpty with volume_24h := some 10, last_price := some 60 }

/-- C1: for the single trade `{ticker: "X", count: 10, price: 60}` and X
resolved with `volume_24h = 1000`, `last_price = 50`, the 24-hour
notional of X is 500, the cycle threshold is 62.5, the trade notional
600 strictly exceeds it, and the folded rollup for X carries
`high_volume = true`. -/
theorem c1_scenario_a_whale_flag :
    marketNotionalVolume24h mdA = 500 ∧
    maxNotionalVolume cacheA = 500 ∧
    whaleThreshold cacheA = 62.5 ∧
    tradeNotionalValue tradeA = 600 ∧
    whaleThreshold cacheA < tradeNotionalValue tradeA ∧
    (runRollups cacheA [tradeA]).map (fun p => (p.1, p.2.high_volume)) = [("X", true)] := by
  refine ⟨?_, ?_, ?_, ?_, ?_, ?_⟩ <;>
    norm_num [runRollups, processTrade, cacheLookup, mapHas, mkMarket, isWhaleTrade,
      tradeNotionalValue, whaleThreshold, maxNotionalVolume, marketNotionalVolume24h,
      cacheA, mdA, mdEmpty, tradeA]

/-- C2: the trade-side notional is `count * price` with no division by
100, while the market-side notional divides by 100 — the very same raw
numbers (10 and 60) normalize to 600 on the trade side and 6 on the
market side, and against `cacheA` the trade is classified a whale trade
although its dollar-normalized notional (6) is far below the 62.5
threshold.  The comparison therefore mixes cent-scaled and dollar-scaled
amounts. -/
theorem c2_notional_unit_mismatch :
    tradeNotionalValue tradeA = 600 ∧
    marketNotionalVolume24h mdSameNumbers = 6 ∧
    tradeNotionalValue tradeA ≠ (tradeA.count.getD 0 * tradeA.price.getD 0) / 100 ∧
    isWhaleTrade (whaleThreshold cacheA) tradeA = true ∧
    tradeNotionalValue tradeA / 100 < whaleThreshold cacheA := by
  refine ⟨?_, ?_, ?_, ?_, ?_⟩ <;>
    norm_num [isWhaleTrade, tradeNotionalValue, whaleThreshold, maxNotionalVolume,
      marketNotionalVolume24h, cacheA, mdA, mdSameNumbers, mdEmpty, tradeA]

/-- C5 counterexample: when the very first (and every) trade-page fetch
fails, the refresh cycle still returns a plain successful response with
an empty market list and count 0; there is no error outcome (the loop
catches the failure and merely breaks). -/
theorem c5_first_page_failure_counterexample :
    refreshCycle (fun _ => Except.error ()) (fun _ => none) =
      { markets := [], count := 0 } := rfl

/-- C5 amended: if the very first page fetch fails, the paginator stops
with an empty accumulation after one fetch and the cycle returns a
successful empty response — the failure is swallowed, not surfaced. -/
theorem c5_first_page_failure_empty_success
    (fetchPage : Option String → Except Unit TradePage)
    (resolve : String → Option MarketMetadata)
    (h : fetchPage none = Except.error ()) :
    paginateTrades fetchPage = ([], 1) ∧
    refreshCycle fetchPage resolve = { markets := [], count := 0 } := by
  have hp : paginateTrades fetchPage = ([], 1) := by
    show paginateLoop fetchPage 5 none [] 0 = ([], 1)
    rw [show (5 : Nat) = 4 + 1 from rfl, paginateLoop, h]
  exact ⟨hp, by simp [refreshCycle, hp, dedupFirst, resolveTickers, runRollups,
    assembleResponse]⟩

/-- C5 witness: the amended statement at a concrete always-failing
fetcher. -/
theorem c5_first_page_failure_empty_success_witness :
    paginateTrades (fun _ => Except.error ()) = ([], 1) ∧
    refreshCycle (fun _ => Except.error ()) (fun _ => some mdA) =
      { markets := [], count := 0 } :=
  c5_first_page_failure_empty_success (fun _ => Except.error ())
    (fun _ => some mdA) rfl

/-- C10: the whale-alerts view reports the same number under `count`,
`whale_signals_count` and `high_volume_count`, and that number is both
the length of the alerts array and the number of markets whose whale
flag is set. -/
theorem c10_whale_alert_counts (resp : MarketsResponse) :
    (whaleAlertsData resp).count = (whaleAlertsData resp).whale_signals_count ∧
    (whaleAlertsData resp).count = (whaleAlertsData resp).high_volume_count ∧
    (whaleAlertsData resp).count = (whaleAlertsData resp).alerts.length ∧
    (whaleAlertsData resp).count
      = (resp.markets.filter (fun m => m.high_volume)).length := by
  refine ⟨rfl, rfl, ?_, ?_⟩ <;> simp [whaleAlertsData]

/-- The pagination loop issues at most as many fetches as it has
remaining iterations. -/
theorem paginateLoop_count_le (fetchPage : Option String → Except Unit TradePage) :
    ∀ (k : Nat) (cur : Option String) (acc : List Trade) (fetches : Nat),
      (paginateLoop fetchPage k cur acc fetches).2 ≤ fetches + k := by
  intro k
  induction k with
  | zero => intro cur acc fetches; simp [paginateLoop]
  | succ n ih =>
      intro cur acc fetches
      cases hf : fetchPage cur with
      | error e => simp [paginateLoop, hf]
      | ok page =>
          cases hc : page.cursor with
          | none => simp [paginateLoop, hf, hc]
          | some c =>
              by_cases hce : c = ""
              · simp [paginateLoop, hf, hc, hce]
              · simp only [paginateLoop, hf, hc, if_neg hce]
                exact le_trans (ih (some c) (acc ++ page.trades.getD [])
                  (fetches + 1)) (by omega)

/-- Against an upstream whose every response is a page with a non-empty
continuation cursor, the loop spends all of its iterations. -/
theorem paginateLoop_count_exact (fetchPage : Option String → Except Unit TradePage)
    (h : ∀ cur, ∃ page c, fetchPage cur = Except.ok page ∧
      page.cursor = some c ∧ c ≠ "") :
    ∀ (k : Nat) (cur : Option String) (acc : List Trade) (fetches : Nat),
      (paginateLoop fetchPage k cur acc fetches).2 = fetches + k := by
  intro k
  induction k with
  | zero => intro cur acc fetches; simp [paginateLoop]
  | succ n ih =>
      intro cur acc fetches
      obtain ⟨page, c, hp, hc, hce⟩ := h cur
      simp only [paginateLoop, hp, hc, if_neg hce]
      rw [ih (some c) (acc ++ page.trades.getD []) (fetches + 1)]
      omega

/-- C9: for every upstream behavior the paginated trade fetch issues at
most `MAX_PAGES_TO_FETCH` (5) page fetches, and against an upstream that
always returns a continuation cursor it issues exactly that many and
stops, keeping the trades accumulated so far. -/
theorem c9_bounded_pagination (fetchPage : Option String → Except Unit TradePage) :
    (paginateTrades fetchPage).2 ≤ MAX_PAGES_TO_FETCH ∧
    ((∀ cur, ∃ page c, fetchPage cur = Except.ok page ∧
        page.cursor = some c ∧ c ≠ "") →
      (paginateTrades fetchPage).2 = MAX_PAGES_TO_FETCH) := by
  constructor
  · simpa using paginateLoop_count_le fetchPage MAX_PAGES_TO_FETCH none [] 0
  · intro h
    simpa using paginateLoop_count_exact fetchPage h MAX_PAGES_TO_FETCH none [] 0

/-- C9 witness: a non-terminating upstream (every page carries cursor
"c") is truncated after exactly 5 fetches. -/
theorem c9_bounded_pagination_witness :
    (paginateTrades (fun _ => Except.ok ⟨some [tradeA], some "c"⟩)).2
        ≤ MAX_PAGES_TO_FETCH ∧
    (paginateTrades (fun _ => Except.ok ⟨some [tradeA], some "c"⟩)).2
        = MAX_PAGES_TO_FETCH :=
  ⟨(c9_bounded_pagination (fun _ => Except.ok ⟨some [tradeA], some "c"⟩)).1,
   (c9_bounded_pagination (fun _ => Except.ok ⟨some [tradeA], some "c"⟩)).2
     (fun _ => ⟨⟨some [tradeA], some "c"⟩, "c", rfl, rfl, by decide⟩)⟩

/-- The Pass-1 running-maximum step is monotone in its accumulator. -/
theorem maxFold_mono_init (l : Cache) :
    ∀ {a b : ℚ}, a ≤ b →
      List.foldl
        (fun acc p =>
          if marketNotionalVolume24h p.2 > acc then marketNotionalVolume24h p.2 else acc)
        a l
      ≤ List.foldl
        (fun acc p =>
          if marketNotionalVolume24h p.2 > acc then marketNotionalVolume24h p.2 else acc)
        b l := by
  induction l with
  | nil => intro a b h; simpa using h
  | cons p rest ih =>
      intro a b h
      simp only [List.foldl_cons]
      apply ih
      split_ifs with h1 h2 <;> linarith

/-- C6: replacing one market's metadata by metadata with a 24-hour
notional volume at least as large, all other markets unchanged, never
decreases the computed whale threshold. -/
theorem c6_threshold_monotone (pre post : Cache) (k : String)
    (md md2 : MarketMetadata)
    (h : marketNotionalVolume24h md ≤ marketNotionalVolume24h md2) :
    whaleThreshold (pre ++ (k, md) :: post) ≤ whaleThreshold (pre ++ (k, md2) :: post) := by
  unfold whaleThreshold
  have hmax : maxNotionalVolume (pre ++ (k, md) :: post)
      ≤ maxNotionalVolume (pre ++ (k, md2) :: post) := by
    unfold maxNotionalVolume
    rw [List.foldl_append, List.foldl_append, List.foldl_cons, List.foldl_cons]
    apply maxFold_mono_init
    split_ifs with h1 h2 <;> linarith
  have h125 : (0 : ℚ) ≤ 0.125 := by norm_num
  exact mul_le_mul_of_nonneg_right hmax h125

/-- C6 witness: doubling the 24-hour unit volume of the only market
raises its notional from 250 to 500 and the threshold accordingly. -/
theorem c6_threshold_monotone_witness :
    marketNotionalVolume24h { mdEmpty with volume_24h := some 500, last_price := some 50 }
      ≤ marketNotionalVolume24h mdA ∧
    whaleThreshold ([] ++ ("X", { mdEmpty with volume_24h := some 500, last_price := some 50 }) :: [])
      ≤ whaleThreshold ([] ++ ("X", mdA) :: []) :=
  ⟨by norm_num [marketNotionalVolume24h, mdA, mdEmpty],
   c6_threshold_monotone [] [] "X"
     { mdEmpty with volume_24h := some 500, last_price := some 50 } mdA
     (by norm_num [marketNotionalVolume24h, mdA, mdEmpty])⟩

/-- C4 counterexample: for ticker Y resolved with a metadata volume
snapshot of 7 and two trades with counts 10 and 1 (one a whale trade, one
not), the folded rollup carries the OR-ed whale flag but its volume is
the metadata snapshot 7 — not a value reflecting the trade quantities
(10 + 1 = 11), and replacing the second trade's count by 6 changes the
rollup not at all. -/
theorem c4_cumulative_volume_counterexample :
    isWhaleTrade (whaleThreshold cacheY) tradeY1 = true ∧
    isWhaleTrade (whaleThreshold cacheY) tradeY2 = false ∧
    (runRollups cacheY [tradeY1, tradeY2]).map
        (fun p => (p.1, p.2.high_volume, p.2.volume)) = [("Y", true, some 7)] ∧
    tradeY1.count.getD 0 + tradeY2.count.getD 0 = 11 ∧
    (7 : ℚ) ≠ 11 ∧
    tradeY2.count ≠ tradeY2b.count ∧
    runRollups cacheY [tradeY1, tradeY2] = runRollups cacheY [tradeY1, tradeY2b] := by
  refine ⟨?_, ?_, ?_, ?_, ?_, ?_, ?_⟩ <;>
    norm_num [runRollups, processTrade, cacheLookup, mapHas, mapUpdate, mkMarket,
      updateMarket, isWhaleTrade, tradeNotionalValue, whaleThreshold, maxNotionalVolume,
      marketNotionalVolume24h, cacheY, mdY, mdEmpty, tradeY1, tradeY2, tradeY2b]

/-- C4 amended: for two trades on the same resolved ticker, exactly one
of them a whale trade, the fold yields a single rollup whose whale flag
is the OR of the two classifications (hence true) and whose volume is
the market metadata's volume snapshot — the fold overwrites volume from
the metadata instead of accumulating trade quantities — with the
last-update timestamp taken from the second trade. -/
theorem c4_or_flag_snapshot_volume (c : Cache) (mdT : MarketMetadata) (t1 t2 : Trade)
    (hres : cacheLookup c t1.ticker = some mdT)
    (ht : t2.ticker = t1.ticker)
    (hw : isWhaleTrade (whaleThreshold c) t1 ≠ isWhaleTrade (whaleThreshold c) t2) :
    (runRollups c [t1, t2]).length = 1 ∧
    ∃ r, mapLookup (runRollups c [t1, t2]) t1.ticker = some r ∧
      r.high_volume = true ∧ r.volume = mdT.volume ∧
      r.last_update = t2.created_time := by
  have h1 : processTrade c (whaleThreshold c) [] t1
      = [(t1.ticker, mkMarket t1 mdT (isWhaleTrade (whaleThreshold c) t1))] := by
    simp [processTrade, hres, mapHas]
  have h2 : runRollups c [t1, t2]
      = [(t1.ticker,
          updateMarket t2 mdT (isWhaleTrade (whaleThreshold c) t2)
            (mkMarket t1 mdT (isWhaleTrade (whaleThreshold c) t1)))] := by
    simp [runRollups, List.foldl, h1, processTrade, ht, hres, mapHas, mapUpdate]
  rw [h2]
  refine ⟨rfl, ?_⟩
  refine ⟨updateMarket t2 mdT (isWhaleTrade (whaleThreshold c) t2)
    (mkMarket t1 mdT (isWhaleTrade (whaleThreshold c) t1)), ?_, ?_, rfl, rfl⟩
  · simp [mapLookup, List.find?]
  · cases hb2 : isWhaleTrade (whaleThreshold c) t2 with
    | true => simp [updateMarket]
    | false =>
        cases hb1 : isWhaleTrade (whaleThreshold c) t1 with
        | true => simp [updateMarket, mkMarket]
        | false => rw [hb1, hb2] at hw; exact absurd rfl hw

/-- C4 witness: the amended statement at the concrete scenario-C input. -/
theorem c4_or_flag_snapshot_volume_witness :
    cacheLookup cacheY tradeY1.ticker = some mdY ∧
    ((runRollups cacheY [tradeY1, tradeY2]).length = 1 ∧
      ∃ r, mapLookup (runRollups cacheY [tradeY1, tradeY2]) tradeY1.ticker = some r ∧
        r.high_volume = true ∧ r.volume = mdY.volume ∧
        r.last_update = tradeY2.created_time) :=
  ⟨rfl,
   c4_or_flag_snapshot_volume cacheY mdY tradeY1 tradeY2 rfl rfl
     (by norm_num [isWhaleTrade, tradeNotionalValue, whaleThreshold, maxNotionalVolume,
        marketNotionalVolume24h, cacheY, mdY, mdEmpty, tradeY1, tradeY2])⟩

/-- On an association list, `has` answers true exactly when `get` finds
an entry. -/
theorem cacheHas_eq_isSome (c : Cache) (k : String) :
    cacheHas c k = (cacheLookup c k).isSome := by
  induction c with
  | nil => rfl
  | cons p rest ih =>
      by_cases hp : p.1 = k
      · simp [cacheHas, cacheLookup, List.find?_cons_of_pos, hp]
      · have h1 : cacheLookup (p :: rest) k = cacheLookup rest k := by
          simp [cacheLookup, List.find?_cons_of_neg, hp]
        have h2 : cacheHas (p :: rest) k = cacheHas rest k := by
          simp [cacheHas, hp]
        rw [h1, h2, ih]

/-- Updating an existing key changes no key set. -/
theorem mapHas_mapUpdate (m : RollupMap) (k z : String) (f : Market → Market) :
    mapHas (mapUpdate m k f) z = mapHas m z := by
  induction m with
  | nil => rfl
  | cons p rest ih =>
      by_cases hp : p.1 = k
      · simp [mapUpdate, hp, mapHas]
      · simp only [mapUpdate, hp, if_false, mapHas, List.any_cons]
        simpa [mapHas] using congrArg (decide (p.1 = z) || ·) ih

/-- A fold step over a trade whose ticker is absent from the resolver
table leaves the rollup map untouched, and a fold step never introduces a
key that is absent from both the map and the resolver table. -/
theorem processTrade_preserves_absent (c : Cache) (threshold : ℚ) (m : RollupMap)
    (t : Trade) (Z : String) (hZ : cacheHas c Z = false)
    (hm : mapHas m Z = false) :
    mapHas (processTrade c threshold m t) Z = false := by
  cases hl : cacheLookup c t.ticker with
  | none => simpa [processTrade, hl] using hm
  | some md =>
      have htk : ¬ t.ticker = Z := by
        intro he
        rw [cacheHas_eq_isSome, ← he, hl] at hZ
        exact absurd hZ (by simp)
      simp only [processTrade, hl]
      by_cases hmh : mapHas m t.ticker = true
      · rw [if_pos hmh, mapHas_mapUpdate]
        exact hm
      · rw [if_neg hmh]
        simp only [mapHas, List.any_append] at hm ⊢
        simp [hm, htk]

/-- Folding any trade list cannot put an unresolved ticker into the map. -/
theorem foldTrades_preserves_absent (c : Cache) (threshold : ℚ) (Z : String)
    (hZ : cacheHas c Z = false) :
    ∀ (trades : List Trade) (m : RollupMap), mapHas m Z = false →
      mapHas (List.foldl (processTrade c threshold) m trades) Z = false := by
  intro trades
  induction trades with
  | nil => intro m hm; simpa using hm
  | cons t rest ih =>
      intro m hm
      exact ih (processTrade c threshold m t)
        (processTrade_preserves_absent c threshold m t Z hZ hm)

/-- Entries of an updated map come from the original map, possibly with
the update applied. -/
theorem mapUpdate_mem (m : RollupMap) (k : String) (f : Market → Market) :
    ∀ p ∈ mapUpdate m k f, p ∈ m ∨ ∃ q ∈ m, p = (q.1, f q.2) := by
  induction m with
  | nil => intro p hp; exact absurd hp (by simp [mapUpdate])
  | cons q rest ih =>
      intro p hp
      by_cases hq : q.1 = k
      · simp only [mapUpdate, hq, if_true, List.mem_cons] at hp
        rcases hp with hp | hp
        · refine Or.inr ⟨q, List.mem_cons_self q rest, ?_⟩
          rw [hp, hq]
        · exact Or.inl (List.mem_cons_of_mem q hp)
      · simp only [mapUpdate, hq, if_false, List.mem_cons] at hp
        rcases hp with hp | hp
        · exact Or.inl (by simp [hp])
        · rcases ih p hp with h | ⟨r, hr, he⟩
          · exact Or.inl (List.mem_cons_of_mem q h)
          · exact Or.inr ⟨r, List.mem_cons_of_mem q hr, he⟩

/-- Every entry a fold step produces keeps the invariant that a rollup
record carries its map key as its ticker symbol. -/
theorem processTrade_ticker_inv (c : Cache) (threshold : ℚ) (m : RollupMap)
    (t : Trade) (hm : ∀ p ∈ m, p.2.ticker_symbol = p.1) :
    ∀ p ∈ processTrade c threshold m t, p.2.ticker_symbol = p.1 := by
  cases hl : cacheLookup c t.ticker with
  | none => simpa [processTrade, hl] using hm
  | some md =>
      simp only [processTrade, hl]
      by_cases hmh : mapHas m t.ticker = true
      · rw [if_pos hmh]
        intro p hp
        rcases mapUpdate_mem m t.ticker _ p hp with h | ⟨q, hq, he⟩
        · exact hm p h
        · rw [he]
          exact hm q hq
      · rw [if_neg hmh]
        intro p hp
        rcases List.mem_append.mp hp with h | h
        · exact hm p h
        · simp only [List.mem_singleton] at h
          rw [h]
          rfl

/-- The key invariant holds of every folded rollup map. -/
theorem foldTrades_ticker_inv (c : Cache) (threshold : ℚ) :
    ∀ (trades : List Trade) (m : RollupMap),
      (∀ p ∈ m, p.2.ticker_symbol = p.1) →
      ∀ p ∈ List.foldl (processTrade c threshold) m trades, p.2.ticker_symbol = p.1 := by
  intro trades
  induction trades with
  | nil => intro m hm; simpa using hm
  | cons t rest ih =>
      intro m hm
      exact ih (processTrade c threshold m t)
        (processTrade_ticker_inv c threshold m t hm)

/-- C3: a trade whose ticker is absent from the resolver table is skipped
without creating or updating any rollup; consequently no rollup keyed by
an unresolved ticker ever exists in the folded map, and no market with
that ticker symbol appears in the filtered output, whatever the trades
and their notional values. -/
theorem c3_unresolved_exclusion (c : Cache) (Z : String)
    (hZ : cacheHas c Z = false) :
    (∀ (threshold : ℚ) (m : RollupMap) (t : Trade), t.ticker = Z →
      processTrade c threshold m t = m) ∧
    (∀ trades : List Trade, mapHas (runRollups c trades) Z = false) ∧
    (∀ (trades : List Trade) (mkt : Market),
      mkt ∈ (assembleResponse (runRollups c trades)).markets →
      mkt.ticker_symbol ≠ Z) := by
  have hnone : cacheLookup c Z = none := by
    rw [cacheHas_eq_isSome] at hZ
    cases hl : cacheLookup c Z with
    | none => rfl
    | some md => rw [hl] at hZ; exact absurd hZ (by simp)
  refine ⟨?_, ?_, ?_⟩
  · intro threshold m t ht
    simp [processTrade, ht, hnone]
  · intro trades
    exact foldTrades_preserves_absent c (whaleThreshold c) Z hZ trades [] rfl
  · intro trades mkt hmem
    have hp : ∃ p ∈ runRollups c trades, p.2 = mkt := by
      simp only [assembleResponse, List.mem_filter, List.mem_map] at hmem
      rcases hmem with ⟨⟨⟨p, hp, hpe⟩, _⟩, _⟩
      exact ⟨p, hp, hpe⟩
    rcases hp with ⟨p, hpmem, hpe⟩
    have hkey : p.2.ticker_symbol = p.1 :=
      foldTrades_ticker_inv c (whaleThreshold c) trades [] (by simp) p hpmem
    have hne : p.1 ≠ Z := by
      intro he
      have hmem2 : mapHas (runRollups c trades) Z = true := by
        simp only [mapHas, List.any_eq_true]
        exact ⟨p, hpmem, by simp [he]⟩
      have hfold := foldTrades_preserves_absent c (whaleThreshold c) Z hZ trades [] rfl
      exact Bool.noConfusion (hfold.symm.trans hmem2)
    rw [← hpe, hkey]
    exact hne

/-- C3 witness: against a table resolving only X, a high-notional trade
on the unresolved ticker Z is skipped and produces no rollup. -/
theorem c3_unresolved_exclusion_witness :
    processTrade cacheA 0 []
        { ticker := "Z", count := some 1000000, price := some 99,
          created_time := "t9", trade_id := none } = [] ∧
    mapHas (runRollups cacheA
        [{ ticker := "Z", count := some 1000000, price := some 99,
           created_time := "t9", trade_id := none }]) "Z" = false :=
  ⟨(c3_unresolved_exclusion cacheA "Z" (by decide)).1 0 []
      { ticker := "Z", count := some 1000000, price := some 99,
        created_time := "t9", trade_id := none } rfl,
   (c3_unresolved_exclusion cacheA "Z" (by decide)).2.1
      [{ ticker := "Z", count := some 1000000, price := some 99,
         created_time := "t9", trade_id := none }]⟩

/-- On the raw resolver table, `has` answers true exactly when an entry
exists. -/
theorem rawCacheHas_eq_isSome (c : List (String × Option MarketMetadata)) (k : String) :
    rawCacheHas c k = (rawCacheEntry c k).isSome := by
  induction c with
  | nil => rfl
  | cons p rest ih =>
      by_cases hp : p.1 = k
      · simp [rawCacheHas, rawCacheEntry, List.find?_cons_of_pos, hp]
      · have h1 : rawCacheEntry (p :: rest) k = rawCacheEntry rest k := by
          simp [rawCacheEntry, List.find?_cons_of_neg, hp]
        have h2 : rawCacheHas (p :: rest) k = rawCacheHas rest k := by
          simp [rawCacheHas, hp]
        rw [h1, h2, ih]

/-- Appending an entry under a different key does not change a lookup. -/
theorem rawCacheEntry_append_ne (acc : List (String × Option MarketMetadata))
    (t z : String) (v : Option MarketMetadata) (h : ¬ t = z) :
    rawCacheEntry (acc ++ [(t, v)]) z = rawCacheEntry acc z := by
  induction acc with
  | nil => simp [rawCacheEntry, List.find?, h]
  | cons a rest ih =>
      by_cases ha : a.1 = z
      · simp [rawCacheEntry, List.find?_cons_of_pos, ha]
      · have e1 : rawCacheEntry ((a :: rest) ++ [(t, v)]) z
            = rawCacheEntry (rest ++ [(t, v)]) z := by
          simp [rawCacheEntry, List.find?_cons_of_neg, ha]
        have e2 : rawCacheEntry (a :: rest) z = rawCacheEntry rest z := by
          simp [rawCacheEntry, List.find?_cons_of_neg, ha]
        rw [e1, e2, ih]

/-- Appending an entry under a key that is so far absent makes the lookup
find exactly that entry. -/
theorem rawCacheEntry_append_absent (acc : List (String × Option MarketMetadata))
    (t : String) (v : Option MarketMetadata) (h : rawCacheHas acc t = false) :
    rawCacheEntry (acc ++ [(t, v)]) t = some v := by
  induction acc with
  | nil => simp [rawCacheEntry, List.find?]
  | cons a rest ih =>
      simp only [rawCacheHas, List.any_cons, Bool.or_eq_false_iff] at h
      have ha : ¬ a.1 = t := by simpa using h.1
      have e1 : rawCacheEntry ((a :: rest) ++ [(t, v)]) t
          = rawCacheEntry (rest ++ [(t, v)]) t := by
        simp [rawCacheEntry, List.find?_cons_of_neg, ha]
      rw [e1]
      exact ih h.2

/-- Entries of the built table come from settled lookups of the iterated
tickers. -/
theorem buildCache_mem (settle : String → Option FetchResponse) :
    ∀ (l : List String) (acc : List (String × Option MarketMetadata))
      (p : String × Option MarketMetadata),
      p ∈ List.foldl
        (fun cache t =>
          match settle t with
          | some resp => cache ++ [(t, jsOrOpt resp.market resp.event)]
          | none => cache)
        acc l →
      p ∈ acc ∨ (p.1 ∈ l ∧ ∃ r, settle p.1 = some r ∧ p.2 = jsOrOpt r.market r.event) := by
  intro l
  induction l with
  | nil => intro acc p hp; exact Or.inl (by simpa using hp)
  | cons t rest ih =>
      intro acc p hp
      simp only [List.foldl_cons] at hp
      cases hs : settle t with
      | none =>
          rw [hs] at hp
          rcases ih _ p hp with h | ⟨hm, r, hr, he⟩
          · exact Or.inl h
          · exact Or.inr ⟨List.mem_cons_of_mem t hm, r, hr, he⟩
      | some resp =>
          rw [hs] at hp
          rcases ih _ p hp with h | ⟨hm, r, hr, he⟩
          · rcases List.mem_append.mp h with h | h
            · exact Or.inl h
            · simp only [List.mem_singleton] at h
              refine Or.inr ⟨?_, resp, ?_, ?_⟩
              · rw [h]; exact List.mem_cons_self t rest
              · rw [h]; exact hs
              · rw [h]
          · exact Or.inr ⟨List.mem_cons_of_mem t hm, r, hr, he⟩

/-- The built table has at most one entry per iterated ticker. -/
theorem buildCache_length (settle : String → Option FetchResponse) :
    ∀ (l : List String) (acc : List (String × Option MarketMetadata)),
      (List.foldl
        (fun cache t =>
          match settle t with
          | some resp => cache ++ [(t, jsOrOpt resp.market resp.event)]
          | none => cache)
        acc l).length ≤ acc.length + l.length := by
  intro l
  induction l with
  | nil => intro acc; simp
  | cons t rest ih =>
      intro acc
      simp only [List.foldl_cons]
      cases hs : settle t with
      | none =>
          have h2 := ih acc
          simp only [List.length_cons]
          omega
      | some resp =>
          have h2 := ih (acc ++ [(t, jsOrOpt resp.market resp.event)])
          simp only [List.length_append, List.length_cons, List.length_nil] at h2 ⊢
          omega

/-- Tickers not iterated leave a lookup unchanged. -/
theorem buildCache_stable (settle : String → Option FetchResponse) (z : String) :
    ∀ (l : List String) (acc : List (String × Option MarketMetadata)), z ∉ l →
      rawCacheEntry
        (List.foldl
          (fun cache t =>
            match settle t with
            | some resp => cache ++ [(t, jsOrOpt resp.market resp.event)]
            | none => cache)
          acc l) z
      = rawCacheEntry acc z := by
  intro l
  induction l with
  | nil => intro acc _; rfl
  | cons t rest ih =>
      intro acc hz
      have hzt : ¬ t = z := fun he => hz (by rw [he]; exact List.mem_cons_self z rest)
      have hzrest : z ∉ rest := fun hr => hz (List.mem_cons_of_mem t hr)
      simp only [List.foldl_cons]
      cases hs : settle t with
      | none => exact ih acc hzrest
      | some resp =>
          rw [ih _ hzrest]
          exact rawCacheEntry_append_ne acc t z _ hzt

/-- For a deduplicated ticker list, the built table's entry at any
iterated ticker is exactly the image of that ticker's own settled lookup:
one lookup's failure neither removes nor alters any other entry. -/
theorem buildCache_entry (settle : String → Option FetchResponse) (z : String) :
    ∀ (l : List String) (acc : List (String × Option MarketMetadata)),
      l.Nodup → z ∈ l → rawCacheHas acc z = false →
      rawCacheEntry
        (List.foldl
          (fun cache t =>
            match settle t with
            | some resp => cache ++ [(t, jsOrOpt resp.market resp.event)]
            | none => cache)
          acc l) z
      = (settle z).map (fun r => jsOrOpt r.market r.event) := by
  intro l
  induction l with
  | nil => intro acc _ hz _; exact absurd hz (by simp)
  | cons t rest ih =>
      intro acc hnd hz hacc
      simp only [List.foldl_cons]
      by_cases hzt : z = t
      · subst hzt
        have hrest : z ∉ rest := (List.nodup_cons.mp hnd).1
        rw [buildCache_stable settle z rest _ hrest]
        cases hs : settle z with
        | none =>
            rw [rawCacheHas_eq_isSome] at hacc
            simp only [hs, Option.map_none]
            cases he : rawCacheEntry acc z with
            | none => rfl
            | some v => rw [he] at hacc; exact absurd hacc (by simp)
        | some resp =>
            simp only [hs, Option.map_some]
            exact rawCacheEntry_append_absent acc z _ hacc
      · have hzrest : z ∈ rest := by
          rcases List.mem_cons.mp hz with h | h
          · exact absurd h hzt
          · exact h
        have hnd2 : rest.Nodup := (List.nodup_cons.mp hnd).2
        cases hs : settle t with
        | none => exact ih acc hnd2 hzrest hacc
        | some resp =>
            refine ih _ hnd2 hzrest ?_
            simp only [rawCacheHas, List.any_append, List.any_cons, List.any_nil,
              Bool.or_eq_false_iff]
            constructor
            · simpa [rawCacheHas] using hacc
            · simpa using fun he : t = z => hzt he.symm

/-- C7: over a deduplicated ticker set whose fulfilled lookup bodies carry
a market or event object, the resolver table contains only keys from the
input set, has at most as many entries, maps every present key to an
actual metadata value, and holds at each ticker exactly the outcome of
that ticker's own lookup — so failures are simply absent and do not
disturb sibling entries. -/
theorem c7_resolver_table_contract (tickers : List String)
    (settle : String → Option FetchResponse)
    (hnodup : tickers.Nodup)
    (hwf : ∀ t r, settle t = some r → (jsOrOpt r.market r.event).isSome = true) :
    (∀ t, rawCacheHas (buildCache tickers settle) t = true → t ∈ tickers) ∧
    (buildCache tickers settle).length ≤ tickers.length ∧
    (∀ t v, (t, v) ∈ buildCache tickers settle → ∃ md, v = some md) ∧
    (∀ t, t ∈ tickers →
      rawCacheEntry (buildCache tickers settle) t
        = (settle t).map (fun r => jsOrOpt r.market r.event)) := by
  refine ⟨?_, ?_, ?_, ?_⟩
  · intro t ht
    simp only [rawCacheHas, List.any_eq_true] at ht
    rcases ht with ⟨p, hp, hpt⟩
    rcases buildCache_mem settle tickers [] p hp with h | ⟨hm, _⟩
    · exact absurd h (by simp)
    · simp only [decide_eq_true_eq] at hpt
      rw [← hpt]
      exact hm
  · simpa using buildCache_length settle tickers []
  · intro t v hv
    rcases buildCache_mem settle tickers [] (t, v) hv with h | ⟨_, r, hr, he⟩
    · exact absurd h (by simp)
    · have hr2 : settle t = some r := hr
      have he2 : v = jsOrOpt r.market r.event := he
      have hsome := hwf t r hr2
      rcases Option.isSome_iff_exists.mp hsome with ⟨md, hmd⟩
      exact ⟨md, by rw [he2]; exact hmd⟩
  · intro t ht
    exact buildCache_entry settle t tickers [] hnodup ht rfl

/-- Settled-lookup behavior used by the C7 witness: ticker A fulfills
with a market body, every other lookup rejects. -/
def settleAB : String → Option FetchResponse :=
  fun t => if t = "A" then some { market := some mdA, event := none } else none

/-- C7 witness: with A fulfilled and B rejected, the table keeps exactly
the metadata entry for A, with at most the input cardinality. -/
theorem c7_resolver_table_contract_witness :
    (buildCache ["A", "B"] settleAB).length ≤ 2 ∧
    rawCacheEntry (buildCache ["A", "B"] settleAB) "A"
      = (settleAB "A").map (fun r => jsOrOpt r.market r.event) ∧
    rawCacheEntry (buildCache ["A", "B"] settleAB) "B"
      = (settleAB "B").map (fun r => jsOrOpt r.market r.event) := by
  have h := c7_resolver_table_contract ["A", "B"] settleAB (by decide)
    (by
      intro t r hr
      simp only [settleAB] at hr
      split at hr
      · cases hr; rfl
      · cases hr)
  exact ⟨h.2.1, h.2.2.2 "A" (by decide), h.2.2.2 "B" (by decide)⟩

/-- Fetch-response body used by the C8 theorems: an event object. -/
def respEvent : FetchResponse := { market := none, event := some mdA }

/-- C8 counterexample: for an allow-listed ticker whose market lookup
fails with 404 while the event lookup would succeed, the current route
returns the 404 failure without ever consulting the event lookup; only
the older fallback variant kept in the repository returns the event
body. -/
theorem c8_no_event_fallback_counterexample :
    marketRouteGET (fun _ => Except.error 404) (fun _ => Except.ok respEvent)
        "KXBTC-TEST" = Except.error 404 ∧
    (Except.ok respEvent : Except Nat FetchResponse) ≠ Except.error 404 ∧
    marketRouteGETFallback (fun _ => Except.error 404) (fun _ => Except.ok respEvent)
        "KXBTC-TEST" = Except.ok respEvent := by
  exact ⟨rfl, by simp, rfl⟩

/-- C8 amended: in the current market route a failing market lookup is
final — the response is that failure, and the route's result does not
depend on the event fetcher at all (no retry against the event
interpretation); the retry exists only in the older route variant. -/
theorem c8_no_event_fallback
    (fetchMarket fetchEvent fetchEvent2 : String → Except Nat FetchResponse)
    (ticker : String) (status : Nat)
    (hne : ¬ ticker = "")
    (hallow : isAllowedTicker ticker = true)
    (hfail : fetchMarket ticker = Except.error status) :
    marketRouteGET fetchMarket fetchEvent ticker = Except.error status ∧
    marketRouteGET fetchMarket fetchEvent ticker
      = marketRouteGET fetchMarket fetchEvent2 ticker := by
  constructor
  · simp [marketRouteGET, hne, hallow, hfail]
  · rfl

/-- C8 witness: the amended statement at a concrete allow-listed ticker
with a 404 market lookup and a succeeding event lookup. -/
theorem c8_no_event_fallback_witness :
    marketRouteGET (fun _ => Except.error 404) (fun _ => Except.ok respEvent)
        "KXBTC-1" = Except.error 404 ∧
    marketRouteGET (fun _ => Except.error 404) (fun _ => Except.ok respEvent)
        "KXBTC-1"
      = marketRouteGET (fun _ => Except.error 404) (fun _ => Except.error 500)
        "KXBTC-1" :=
  c8_no_event_fallback (fun _ => Except.error 404) (fun _ => Except.ok respEvent)
    (fun _ => Except.error 500) "KXBTC-1" 404 (by decide) (by decide) rfl

end KalshiWhale
